import Mathlib

/-!
Verification of the strax-formatting data path of the dax DAQ readout host
(src/StraxFormatter.cc, src/StraxFormatter.hh, src/V1724.hh).

The C++ source is shallowly embedded: 32-bit words are `Nat` with explicit
`% 2^32` masks where the machine arithmetic wraps, byte strings are
`List Nat` (each element a byte value), and the fragment-emitting functions
return explicit records of their return value and side effects (fragments
pushed to `fTempBuffer`, artificial-deadtime fragments routed through
`AddFragmentToBuffer`, a thrown `runtime_error`, calls back into the
controller).  Timestamps handed to `AddFragmentToBuffer` are `int64_t` in
the source and are embedded as `Int`.

The per-board `DataFormatDefinition` map is initialized in board code that
is not part of the sources under verification; it is modelled from the
specification (§3), which lists its five entries.
-/

/-- Little-endian byte encoding of a natural number in `w` bytes, exactly the
bytes `fragment.append((char*)&x, w)` writes for an unsigned value. -/
def le_bytes : Nat → Nat → List Nat
  | 0, _ => []
  | w + 1, n => n % 256 :: le_bytes w (n / 256)

/-- Little-endian bytes of a signed C++ integer of `w` bytes (two's
complement), as `fragment.append((char*)&x, w)` writes them. -/
def le_int (w : Nat) (n : Int) : List Nat :=
  le_bytes w ((n % ((2 : Int) ^ (8 * w))).toNat)

/-- Decode a little-endian byte list back to a natural number. -/
def decodeLE : List Nat → Nat
  | [] => 0
  | b :: r => b + 256 * decodeLE r

/-- C++ conversion of a (possibly signed) integer value to `u_int32_t`. -/
def u32n (n : Int) : Nat := (n % ((2 : Int) ^ 32)).toNat

/-- C++ conversion of a (possibly signed) integer value to `u_int16_t`. -/
def u16n (n : Int) : Nat := (n % ((2 : Int) ^ 16)).toNat

/-- C++ conversion of a (possibly signed) integer value to `u_int64_t`. -/
def u64n (n : Int) : Nat := (n % ((2 : Int) ^ 64)).toNat

/-- `std::bitset<16>(channel_mask).count()`: population count of the low
16 bits. -/
def popcount16 (m : Nat) : Nat :=
  ((List.range 16).map (fun i => m >>> i &&& 1)).sum

/-- The zero-padding loop of `ProcessChannel`: append the 2-byte
`zero_filler` until the string reaches `target` bytes
(`while((int)fragment.size()<fFragmentBytes+fStraxHeaderSize)
fragment.append((char*)&zero_filler, 2);`). -/
def padTo2 (target : Nat) (l : List Nat) : List Nat :=
  l ++ List.replicate (2 * ((target - l.length + 1) / 2)) 0

/-- The zero-padding loop of `GenerateArtificialDeadtime`: append single
zero bytes until the string reaches `target` bytes. -/
def padTo1 (target : Nat) (l : List Nat) : List Nat :=
  l ++ List.replicate (target - l.length) 0

/-- The raw bytes of a sequence of 32-bit little-endian words, as they sit
in the readout buffer that `ProcessChannel` copies sample payloads from. -/
def wordBytes (l : List Nat) : List Nat :=
  (l.map (fun w => le_bytes 4 (w % 2 ^ 32))).flatten

/-- Modelled from the spec: the per-board `DataFormatDefinition`
(`std::map<std::string,int>`, initialized in board code outside the
verified sources).  §3 of the specification lists its entries:
`ns_per_clock`, `ns_per_sample`, `channel_header_words`,
`channel_mask_msb_idx`, `channel_time_msb_idx`. -/
structure DataFormat where
  ns_per_clock : Int
  ns_per_sample : Int
  channel_header_words : Int
  channel_mask_msb_idx : Int
  channel_time_msb_idx : Int
deriving DecidableEq

/-- Modelled from the spec: `fmt[key]` on the `DataFormatDefinition` map.
`std::map<std::string,int>::operator[]` returns the stored value for a key
that is present and value-initializes (to 0) any key that is absent; the
keys present are the five the specification lists (§3). -/
def fmtGet (f : DataFormat) (k : String) : Int :=
  if k = "ns_per_clock" then f.ns_per_clock
  else if k = "ns_per_sample" then f.ns_per_sample
  else if k = "channel_header_words" then f.channel_header_words
  else if k = "channel_mask_msb_idx" then f.channel_mask_msb_idx
  else if k = "channel_time_msb_idx" then f.channel_time_msb_idx
  else 0

/-- The formatter configuration that the decode path reads:
`fFragmentBytes` (`strax_fragment_payload_bytes`, a nonnegative C++ `int`).
`fStraxHeaderSize` is the constant 24. -/
structure Cfg where
  fragmentBytes : Nat
deriving DecidableEq

def straxHeaderSize : Nat := 24

def event_header_words : Nat := 4

def max_channels : Nat := 16

/-- `StraxFormatter::GenerateArtificialDeadtime(int64_t timestamp, int16_t bid)`:
the byte string it assembles and hands to `AddFragmentToBuffer`. -/
def GenerateArtificialDeadtime (cfg : Cfg) (timestamp : Int) (bid : Int) : List Nat :=
  padTo1 (cfg.fragmentBytes + straxHeaderSize)
    (le_int 8 timestamp ++ le_bytes 4 (cfg.fragmentBytes >>> 1) ++ le_bytes 2 10
      ++ le_bytes 2 790 ++ le_bytes 4 (cfg.fragmentBytes >>> 1) ++ le_bytes 2 0
      ++ le_bytes 2 0 ++ le_int 2 bid)

/-- The sanity scan of `ProcessChannel`
(`for (unsigned w = fmt["channel_header_words"]; w < channel_words; w++)`):
true iff some word in the scanned range has its top nibble equal to 0xA. -/
def caenSentinel (buff : List Nat) (scanStart channel_words : Nat) : Bool :=
  (List.range' scanStart (channel_words - scanStart)).any
    (fun w => ((buff.getD w 0) % 2 ^ 32) >>> 28 == 0xA)

/-- Result of `ProcessChannel`: the `int` return value, the data fragments
pushed onto `fTempBuffer` in order, the artificial-deadtime fragments routed
through `AddFragmentToBuffer` (with the timestamp passed alongside), whether
the `std::runtime_error` for an unresolvable channel map was thrown, and
whether the fragment loop fails to terminate (its `uint16_t` counter wraps
before reaching the bound, see `fragLoopDiverges`).  When `fatalError` or
`diverges` is set no return value exists (`ret` is set to -1) and `frags`
lists no fragments — in the divergent case the source emplaces fragments
without bound and never returns, so no finite list describes them. -/
structure ChanOut where
  ret : Int
  frags : List (List Nat)
  deadtime : List (Int × List Nat)
  fatalError : Bool
  diverges : Bool
deriving DecidableEq

/-- The fragment loop of `ProcessChannel` is
`for (uint16_t frag_i = 0; frag_i < num_frags; frag_i++)`
(src/StraxFormatter.cc line 277) with `int num_frags`: the 16-bit counter is
promoted to `int` for the comparison, so when `2^16 ≤ num_frags < 2^31` the
counter wraps from 65535 back to 0 before the condition can fail and the
loop never terminates. -/
def fragLoopDiverges (num_frags : Nat) : Prop :=
  2 ^ 16 ≤ num_frags ∧ num_frags < 2 ^ 31

instance (num_frags : Nat) : Decidable (fragLoopDiverges num_frags) :=
  inferInstanceAs (Decidable (_ ∧ _))

/-- Number of iterations the fragment loop completes when it terminates:
`num_frags` itself when it fits the `uint16_t` counter; 0 when
`num_frags ≥ 2^31`, because the `u_int32_t` quotient converted to the `int`
`num_frags` is negative and `frag_i < num_frags` fails at once. -/
def fragLoopCount (num_frags : Nat) : Nat :=
  if num_frags < 2 ^ 16 then num_frags else 0

/-- The second half of `StraxFormatter::ProcessChannel` (from the
`Time64` computation, line 256, to the end): shared by the default-firmware
path and the DPP-DAW path once `channel_words`, `channel_timeMSB`,
`channel_time` and `baseline_ch` are fixed.  The fragment loop runs
`fragLoopCount num_frags` iterations when it terminates and sets `diverges`
when its `uint16_t` counter wraps (`fragLoopDiverges`). -/
def processTail (cfg : Cfg) (fmt : DataFormat) (chmap : Int → Nat → Int)
    (buff : List Nat) (bid : Int) (channel : Nat)
    (channel_words : Nat) (channel_timeMSB : Nat) (channel_time : Nat)
    (baseline_ch : Nat) : ChanOut :=
  let Time64 : Int := fmtGet fmt "ns_per_clk" * ((channel_timeMSB + channel_time : Nat) : Int)
  let scanStart : Nat := u32n fmt.channel_header_words
  if caenSentinel buff scanStart channel_words then
    ⟨-1, [], [(Time64, GenerateArtificialDeadtime cfg Time64 bid)], false, false⟩
  else
    let samples_in_pulse : Nat := (u32n ((channel_words : Int) - fmt.channel_header_words) * 2) % 2 ^ 32
    let sw : Nat := u16n fmt.ns_per_sample
    let fragment_samples : Nat := cfg.fragmentBytes >>> 1
    let cl : Int := chmap bid channel
    if cl = -1 then ⟨-1, [], [], true, false⟩
    else
      let num_frags : Nat := samples_in_pulse / fragment_samples
        + (if samples_in_pulse % fragment_samples ≠ 0 then 1 else 0)
      let pulseBytes : List Nat := wordBytes (buff.drop scanStart)
      if fragLoopDiverges num_frags then
        ⟨-1, [], [], false, true⟩
      else
        let frags : List (List Nat) := (List.range (fragLoopCount num_frags)).map (fun i =>
          let samples_this : Nat :=
            if i = num_frags - 1 then samples_in_pulse - i * fragment_samples
            else fragment_samples
          let time_this : Nat := u64n (Time64 + ((fragment_samples * sw * i : Nat) : Int))
          padTo2 (cfg.fragmentBytes + straxHeaderSize)
            (le_bytes 8 time_this ++ le_bytes 4 samples_this ++ le_bytes 2 sw
              ++ le_int 2 cl ++ le_bytes 4 samples_in_pulse ++ le_bytes 2 (i % 2 ^ 16)
              ++ le_bytes 2 baseline_ch
              ++ (pulseBytes.drop (i * fragment_samples * 2)).take (samples_this * 2)))
        ⟨(channel_words : Int), frags, [], false, false⟩

/-- The first half of `StraxFormatter::ProcessChannel`: decoding
`channel_words`, `channel_timeMSB`, `channel_time` and `baseline_ch`.
`none` models the early `return -1` branches (garbled DPP-DAW channel
header, empty DPP-DAW channel). -/
def channelHead (fmt : DataFormat) (buff : List Nat) (words_in_event : Nat)
    (header_time event_time clock_counter : Nat) (channel_mask : Nat) :
    Option (Nat × Nat × Nat × Nat) :=
  if 0 < fmt.channel_header_words then
    let cw_raw := (buff.getD 0 0) % 2 ^ 32 &&& 0x7FFFFF
    if words_in_event < cw_raw then none
    else if (cw_raw : Int) ≤ fmt.channel_header_words then none
    else
      let channel_time := (buff.getD 1 0) % 2 ^ 32 &&& 0x7FFFFFFF
      let baseline_ch :=
        if fmt.channel_time_msb_idx = 2 then (((buff.getD 2 0) % 2 ^ 32) >>> 16) &&& 0x3FFF else 0
      if fmt.channel_header_words ≤ 2 then
        let cc :=
          if 1500000000 < channel_time ∧ header_time < 500000000 ∧ clock_counter ≠ 0 then
            clock_counter - 1
          else if channel_time < 500000000 ∧ 1500000000 < header_time then
            clock_counter + 1
          else clock_counter
        some (cw_raw, cc <<< 31, channel_time, baseline_ch)
      else
        let channel_timeMSB :=
          if fmt.channel_time_msb_idx = 2 then ((buff.getD 2 0) % 2 ^ 32 &&& 0xFFFF) <<< 32 else 0
        some (cw_raw, channel_timeMSB, channel_time, baseline_ch)
  else
    some (u32n ((words_in_event : Int) - (event_header_words : Int)) / popcount16 channel_mask,
      0, (clock_counter <<< 31) + event_time, 0)

/-- `StraxFormatter::ProcessChannel` (src/StraxFormatter.cc lines 206-308).
`buff` is the channel's word slice, `chmap` embeds
`fOptions->GetChannel`. -/
def ProcessChannel (cfg : Cfg) (fmt : DataFormat) (chmap : Int → Nat → Int)
    (buff : List Nat) (words_in_event : Nat) (bid : Int) (channel : Nat)
    (header_time event_time clock_counter : Nat) (channel_mask : Nat) : ChanOut :=
  match channelHead fmt buff words_in_event header_time event_time clock_counter channel_mask with
  | none => ⟨-1, [], [], false, false⟩
  | some (cw, tm, ct, bl) => processTail cfg fmt chmap buff bid channel cw tm ct bl

/-- Result of `ProcessEvent`: its `uint32_t` return value, the fragments and
deadtime fragments emitted while processing the event, whether
`fDataSource->CheckError(bid)` was called and `fFailCounter[bid]`
incremented, whether a channel decode threw, and whether a channel's
fragment loop failed to terminate (in which case `ProcessEvent` never
returns either). -/
structure EvOut where
  ret : Nat
  frags : List (List Nat)
  deadtime : List (Int × List Nat)
  checkError : Bool
  failInc : Bool
  fatal : Bool
  diverges : Bool
deriving DecidableEq

/-- The channel loop of `ProcessEvent` (`for(unsigned ch=0; ch<max_channels;
ch++)` with `if (ret == -1) break; idx += ret;`), over the list of set mask
bits still to process.  A thrown exception stops the loop immediately, and a
non-terminating fragment loop inside `ProcessChannel` keeps the whole event
from ever returning. -/
def evChannels (cfg : Cfg) (fmt : DataFormat) (chmap : Int → Nat → Int)
    (buff : List Nat) (words_in_event : Nat) (bid : Int)
    (header_time event_time clock_counter : Nat) (channel_mask : Nat) :
    List Nat → Nat → EvOut
  | [], idx => ⟨idx, [], [], false, false, false, false⟩
  | ch :: rest, idx =>
    let r := ProcessChannel cfg fmt chmap (buff.drop idx) words_in_event bid ch
      header_time event_time clock_counter channel_mask
    if r.diverges then ⟨idx, r.frags, r.deadtime, false, false, false, true⟩
    else if r.fatalError then ⟨idx, r.frags, r.deadtime, false, false, true, false⟩
    else if r.ret = -1 then ⟨idx, r.frags, r.deadtime, false, false, false, false⟩
    else
      let next := evChannels cfg fmt chmap buff words_in_event bid header_time
        event_time clock_counter channel_mask rest (idx + r.ret.toNat)
      ⟨next.ret, r.frags ++ next.frags, r.deadtime ++ next.deadtime,
        next.checkError, next.failInc, next.fatal, next.diverges⟩

/-- `StraxFormatter::ProcessEvent` (src/StraxFormatter.cc lines 161-204).
`buff` is the event's word slice (starting at the 0xA header word). -/
def ProcessEvent (cfg : Cfg) (fmt : DataFormat) (chmap : Int → Nat → Int)
    (buff : List Nat) (total_words : Nat) (clock_counter : Nat)
    (header_time : Nat) (bid : Int) : EvOut :=
  let words_in_event := min ((buff.getD 0 0) % 2 ^ 32 &&& 0xFFFFFFF) total_words
  let channel_mask := ((buff.getD 1 0) % 2 ^ 32 &&& 0xFF)
    ||| (if fmt.channel_mask_msb_idx ≠ -1
         then ((((buff.getD 2 0) % 2 ^ 32) >>> 24) &&& 0xFF) <<< 8 else 0)
  let event_time := (buff.getD 3 0) % 2 ^ 32 &&& 0x7FFFFFFF
  if (buff.getD 1 0) % 2 ^ 32 &&& 0x4000000 ≠ 0 then
    let ts : Int := ((clock_counter <<< 31) + event_time : Nat) * fmtGet fmt "ns_per_clock"
    ⟨event_header_words, [], [(ts, GenerateArtificialDeadtime cfg ts bid)], true, true, false, false⟩
  else
    evChannels cfg fmt chmap buff words_in_event bid header_time event_time
      clock_counter channel_mask
      ((List.range max_channels).filter (fun ch => channel_mask &&& (1 <<< ch) ≠ 0))
      event_header_words

/-- Modelled from the spec: `GetStringFormat` (declared in the
StraxInserter header; its implementation is not among the sources under
verification) renders a chunk id as a zero-padded decimal string of width
`fChunkNameLength`. -/
def GetStringFormat (chunkNameLength : Nat) (id : Nat) : String :=
  String.mk (List.replicate (chunkNameLength - (toString id).length) '0') ++ toString id

/-- `StraxFormatter::AddFragmentToBuffer` (src/StraxFormatter.cc lines
310-358), restricted to its effect on the `fFragments` map (the
`fTimeLastSeen` bookkeeping and the warning diagnostics do not touch the
fragment data).  The map is embedded as a total function from key to byte
string, empty-by-default, matching `fFragments[k] = new std::string()` on
first touch. -/
def AddFragmentToBuffer (chunkNameLength : Nat) (fullChunkLength chunkOverlap : Nat)
    (buf : String → List Nat) (fragment : List Nat) (timestamp : Nat) :
    String → List Nat :=
  let chunk_id := timestamp / fullChunkLength
  let nextpre := (chunk_id + 1) * fullChunkLength - timestamp ≤ chunkOverlap
  let chunk_index := GetStringFormat chunkNameLength chunk_id
  if nextpre then
    let nextchunk_index := GetStringFormat chunkNameLength (chunk_id + 1)
    fun k =>
      if k = nextchunk_index ++ "_pre" then buf k ++ fragment
      else if k = chunk_index ++ "_post" then buf k ++ fragment
      else buf k
  else
    fun k => if k = chunk_index then buf k ++ fragment else buf k

/-- `StraxFormatter::CheckError()` (src/StraxFormatter.hh line 48):
`bool CheckError(){ bool ret = fErrorBit; fErrorBit = false; return ret;}`.
The state is the `fErrorBit` member; the result is the returned value
paired with the new state. -/
def CheckErrorOp (errorBit : Bool) : Bool × Bool :=
  (errorBit, false)

/-- The clock-rollover reconciliation as the specification words it
(§4.2 / §8): the local counter is decremented exactly when
`channel_time > 1.5e9 ∧ header_time < 5e8 ∧ clock_counter ≠ 0`, incremented
exactly when `channel_time < 5e8 ∧ header_time > 1.5e9`, and otherwise left
unchanged. -/
def spec_clock_adjust (clock_counter header_time channel_time : Nat) : Nat :=
  if 1500000000 < channel_time ∧ header_time < 500000000 ∧ clock_counter ≠ 0 then
    clock_counter - 1
  else if channel_time < 500000000 ∧ 1500000000 < header_time then
    clock_counter + 1
  else clock_counter

/-- The board format of end-to-end scenario 1 of the specification:
default firmware, ns_per_clock = ns_per_sample = 10. -/
def fmtDefault10 : DataFormat := ⟨10, 10, 0, -1, -1⟩

/-- The board format of end-to-end scenario 4 of the specification:
DPP-DAW firmware with a 2-word channel header and no explicit
high-timestamp word. -/
def fmtDpp2 : DataFormat := ⟨10, 10, 2, -1, -1⟩

/-- A channel map that labels channel `ch` of any board as `ch`
(no failing lookups). -/
def chmapId : Int → Nat → Int := fun _ ch => (ch : Int)

/-- A channel map whose every lookup fails (`GetChannel` returns -1). -/
def chmapFail : Int → Nat → Int := fun _ _ => -1

/-- The event words of end-to-end scenario 1 of the specification (the
packet holds 12 valid words although the event header advertises 0x10). -/
def s1words : List Nat := [0xA0000010, 0x00000003, 0x00000000, 0x00001000,
  0x11112222, 0x33334444, 0x55556666, 0x77778888,
  0x9999AAAA, 0xBBBBCCCC, 0xDDDDEEEE, 0xFFFF0000]

/-- A minimal default-firmware event: four header words and one data word
for its single enabled channel. -/
def s1small : List Nat := [0xA0000005, 0x00000001, 0x00000000, 0x00000000, 0x11112222]

/-! ## Supporting lemmas -/

theorem le_bytes_length : ∀ w n, (le_bytes w n).length = w
  | 0, _ => rfl
  | w + 1, n => by simp [le_bytes, le_bytes_length w]

theorem le_int_length (w : Nat) (n : Int) : (le_int w n).length = w := by
  simp [le_int, le_bytes_length]

theorem decodeLE_le_bytes : ∀ w n, n < 2 ^ (8 * w) → decodeLE (le_bytes w n) = n
  | 0, n, h => by
    simp [le_bytes, decodeLE]
    omega
  | w + 1, n, h => by
    have hdiv : n / 256 < 2 ^ (8 * w) := by
      have h8 : (8 : Nat) * (w + 1) = 8 * w + 8 := by ring
      rw [h8, pow_add] at h
      have : (2 : Nat) ^ 8 = 256 := by norm_num
      rw [this] at h
      exact Nat.div_lt_of_lt_mul (by omega)
    simp [le_bytes, decodeLE, decodeLE_le_bytes w _ hdiv]
    omega

theorem padTo1_length (t : Nat) (l : List Nat) (h : l.length ≤ t) :
    (padTo1 t l).length = t := by
  simp [padTo1]
  omega

theorem padTo2_length (t : Nat) (l : List Nat) (h : l.length ≤ t)
    (h2 : 2 ∣ (t - l.length)) : (padTo2 t l).length = t := by
  simp [padTo2]
  omega

theorem replicate_getD (m k : Nat) : (List.replicate m (0 : Nat)).getD k 0 = 0 := by
  rcases lt_or_ge k m with h | h
  · simp [List.getD_eq_getElem?_getD, List.getElem?_replicate, h]
  · simp [List.getD_eq_getElem?_getD, List.getElem?_eq_none, h]

theorem shl31_lor (a b : Nat) (h : b < 2 ^ 31) : (a <<< 31) ||| b = (a <<< 31) + b := by
  apply Nat.eq_of_testBit_eq
  intro i
  rw [Nat.testBit_lor, Nat.shiftLeft_eq, Nat.mul_comm, Nat.testBit_mul_pow_two_add _ h,
    Nat.testBit_mul_pow_two]
  by_cases hi : i < 31
  · simp [hi, Nat.not_le.mpr hi]
  · have hb : b.testBit i = false :=
      Nat.testBit_lt_two_pow
        (lt_of_lt_of_le h (Nat.pow_le_pow_right (by norm_num) (Nat.not_lt.mp hi)))
    simp [hi, Nat.not_lt.mp hi, hb]

theorem ceil_div_split (fs s : Nat) (h : 0 < fs) :
    s / fs + (if s % fs ≠ 0 then 1 else 0) = (s + fs - 1) / fs := by
  have h1 := Nat.div_add_mod s fs
  have hr := Nat.mod_lt s h
  set q := s / fs with hq
  set r := s % fs with hrr
  rcases Nat.eq_zero_or_pos r with h0 | h0
  · have hs : s + fs - 1 = fs * q + (fs - 1) := by omega
    simp [h0, hs, Nat.mul_add_div h, Nat.div_eq_of_lt (show fs - 1 < fs by omega)]
  · have hm : fs * (q + 1) = fs * q + fs := by ring
    have hs : s + fs - 1 = fs * (q + 1) + (r - 1) := by omega
    have hx : (s + fs - 1) / fs = q + 1 + (r - 1) / fs := by rw [hs, Nat.mul_add_div h]
    rw [hx, Nat.div_eq_of_lt (show r - 1 < fs by omega)]
    simp [Nat.pos_iff_ne_zero.mp h0]

theorem flatten_chunks (l : List Nat) (k : Nat) (n : Nat) :
    ((List.range n).map (fun i => (l.drop (i * k)).take k)).flatten = l.take (n * k) := by
  induction n with
  | zero => simp
  | succ n ih =>
    rw [List.range_succ, List.map_append, List.flatten_append]
    simp only [List.map_cons, List.map_nil, List.flatten_cons, List.flatten_nil,
      List.append_nil]
    rw [ih, Nat.succ_mul, List.take_add]

theorem flatten_chunks_last (l : List Nat) (k n T : Nat) (hk : 0 < k) (hn : 0 < n)
    (h1 : (n - 1) * k < T) (h2 : T ≤ n * k) (h3 : T ≤ l.length) :
    ((List.range n).map
      (fun i => (l.drop (i * k)).take (if i = n - 1 then T - (n - 1) * k else k))).flatten
      = l.take T := by
  obtain ⟨m, rfl⟩ : ∃ m, n = m + 1 := ⟨n - 1, by omega⟩
  rw [List.range_succ, List.map_append, List.flatten_append]
  simp only [List.map_cons, List.map_nil, List.flatten_cons, List.flatten_nil,
    List.append_nil, Nat.add_sub_cancel]
  have hcongr : (List.range m).map
      (fun i => (l.drop (i * k)).take (if i = m then T - m * k else k)) =
      (List.range m).map (fun i => (l.drop (i * k)).take k) := by
    apply List.map_congr_left
    intro i hi
    have : i ≠ m := by
      have := List.mem_range.mp hi
      omega
    simp [this]
  simp only [Nat.add_sub_cancel] at hcongr ⊢
  rw [hcongr, flatten_chunks]
  simp only [if_pos trivial, eq_self_iff_true, if_true]
  have e1 : (m + 1 - 1) * k = m * k := by simp
  have e2 : (m + 1) * k = m * k + k := by ring
  rw [e1] at h1
  rw [e2] at h2
  have hT : m * k + (T - m * k) = T := by omega
  have hsplit := List.take_add l (m * k) (T - m * k)
  rw [hT] at hsplit
  exact hsplit.symm

theorem wordBytes_length (l : List Nat) : (wordBytes l).length = 4 * l.length := by
  induction l with
  | nil => simp [wordBytes]
  | cons a l ih =>
    simp [wordBytes, le_bytes_length] at ih ⊢
    omega

theorem wordBytes_take (l : List Nat) (m : Nat) :
    (wordBytes l).take (4 * m) = wordBytes (l.take m) := by
  induction l generalizing m with
  | nil => simp [wordBytes]
  | cons a l ih =>
    cases m with
    | zero => simp [wordBytes]
    | succ m =>
      have h4 : 4 * (m + 1) = (le_bytes 4 (a % 2 ^ 32)).length + 4 * m := by
        simp [le_bytes_length]; ring
      simp only [wordBytes, List.map_cons, List.flatten_cons, List.take_succ_cons]
      rw [h4, List.take_add, List.take_left, List.drop_left]
      simp only [wordBytes] at ih
      rw [ih]

theorem getD_map_range {α : Type} (g : Nat → α) (n i : Nat) (d : α) (hi : i < n) :
    ((List.range n).map g).getD i d = g i := by
  simp [List.getD_eq_getElem?_getD, List.getElem?_map, List.getElem?_range hi]

theorem string_pre_ne_post (s t : String) : s ++ "_pre" ≠ t ++ "_post" := by
  intro h
  have hd : s.data ++ "_pre".data = t.data ++ "_post".data := congrArg String.data h
  have h2 := congrArg (fun l => l.reverse.head?) hd
  simp only [show "_pre".data = ['_', 'p', 'r', 'e'] from rfl,
    show "_post".data = ['_', 'p', 'o', 's', 't'] from rfl,
    List.reverse_append] at h2
  simp at h2

theorem fmtGet_ns_per_clock (f : DataFormat) : fmtGet f "ns_per_clock" = f.ns_per_clock := rfl

theorem fmtGet_ns_per_clk (f : DataFormat) : fmtGet f "ns_per_clk" = 0 := rfl

/-! ## Claim theorems -/

/-- C10: `StraxFormatter::CheckError()` returns the current error bit and
resets it, so the stored bit is false after any call and two consecutive
calls return the old value followed by false. -/
theorem checkError_reports_once (b : Bool) :
    (CheckErrorOp b).1 = b ∧ (CheckErrorOp b).2 = false ∧
      (CheckErrorOp (CheckErrorOp b).2).1 = false :=
  ⟨rfl, rfl, rfl⟩

/-- C2: a fragment whose timestamp satisfies
`(chunk_id+1)*full_chunk_length - ts > chunk_overlap` is appended under
exactly the bare zero-padded chunk id; otherwise it is appended, with
identical bytes, under exactly the keys `fmt(chunk_id+1) ++ "_pre"` and
`fmt(chunk_id) ++ "_post"`; no other key of the buffer changes. -/
theorem addFragmentToBuffer_chunk_routing
    (cnl fcl ov : Nat) (buf : String → List Nat) (frag : List Nat) (ts : Nat) :
    (ov < (ts / fcl + 1) * fcl - ts →
      (AddFragmentToBuffer cnl fcl ov buf frag ts (GetStringFormat cnl (ts / fcl)) =
        buf (GetStringFormat cnl (ts / fcl)) ++ frag ∧
       ∀ k, k ≠ GetStringFormat cnl (ts / fcl) →
        AddFragmentToBuffer cnl fcl ov buf frag ts k = buf k)) ∧
    ((ts / fcl + 1) * fcl - ts ≤ ov →
      (AddFragmentToBuffer cnl fcl ov buf frag ts
          (GetStringFormat cnl (ts / fcl + 1) ++ "_pre") =
        buf (GetStringFormat cnl (ts / fcl + 1) ++ "_pre") ++ frag ∧
       AddFragmentToBuffer cnl fcl ov buf frag ts
          (GetStringFormat cnl (ts / fcl) ++ "_post") =
        buf (GetStringFormat cnl (ts / fcl) ++ "_post") ++ frag ∧
       ∀ k, k ≠ GetStringFormat cnl (ts / fcl + 1) ++ "_pre" →
            k ≠ GetStringFormat cnl (ts / fcl) ++ "_post" →
        AddFragmentToBuffer cnl fcl ov buf frag ts k = buf k)) := by
  constructor
  · intro h
    have hn : ¬ ((ts / fcl + 1) * fcl - ts ≤ ov) := not_le.mpr h
    constructor
    · simp only [AddFragmentToBuffer]
      rw [if_neg hn]
      simp
    · intro k hk
      simp only [AddFragmentToBuffer]
      rw [if_neg hn]
      simp [hk]
  · intro h
    have hne : GetStringFormat cnl (ts / fcl) ++ "_post" ≠
        GetStringFormat cnl (ts / fcl + 1) ++ "_pre" :=
      fun hx => string_pre_ne_post _ _ hx.symm
    refine ⟨?_, ?_, ?_⟩
    · simp only [AddFragmentToBuffer]
      rw [if_pos h]
      simp
    · simp only [AddFragmentToBuffer]
      rw [if_pos h]
      simp [hne]
    · intro k hk1 hk2
      simp only [AddFragmentToBuffer]
      rw [if_pos h]
      simp [hk1, hk2]

/-- C2 witness: spec scenarios 5 and 6 (`full_chunk_length = 1000`,
`chunk_overlap = 100`): timestamp 800 goes only to `"000000"`, timestamp
950 goes to `"000001_pre"` and `"000000_post"`. -/
theorem addFragmentToBuffer_chunk_routing_witness :
    ((100 : Nat) < (800 / 1000 + 1) * 1000 - 800 →
      (AddFragmentToBuffer 6 1000 100 (fun _ => []) [1, 2] 800
          (GetStringFormat 6 (800 / 1000)) =
        (fun _ => ([] : List Nat)) (GetStringFormat 6 (800 / 1000)) ++ [1, 2] ∧
       ∀ k, k ≠ GetStringFormat 6 (800 / 1000) →
        AddFragmentToBuffer 6 1000 100 (fun _ => []) [1, 2] 800 k = (fun _ => ([] : List Nat)) k)) ∧
    ((950 / 1000 + 1) * 1000 - 950 ≤ 100 →
      (AddFragmentToBuffer 6 1000 100 (fun _ => []) [1, 2] 950
          (GetStringFormat 6 (950 / 1000 + 1) ++ "_pre") =
        (fun _ => ([] : List Nat)) (GetStringFormat 6 (950 / 1000 + 1) ++ "_pre") ++ [1, 2] ∧
       AddFragmentToBuffer 6 1000 100 (fun _ => []) [1, 2] 950
          (GetStringFormat 6 (950 / 1000) ++ "_post") =
        (fun _ => ([] : List Nat)) (GetStringFormat 6 (950 / 1000) ++ "_post") ++ [1, 2] ∧
       ∀ k, k ≠ GetStringFormat 6 (950 / 1000 + 1) ++ "_pre" →
            k ≠ GetStringFormat 6 (950 / 1000) ++ "_post" →
        AddFragmentToBuffer 6 1000 100 (fun _ => []) [1, 2] 950 k = (fun _ => ([] : List Nat)) k)) :=
  ⟨(addFragmentToBuffer_chunk_routing 6 1000 100 (fun _ => []) [1, 2] 800).1,
   (addFragmentToBuffer_chunk_routing 6 1000 100 (fun _ => []) [1, 2] 950).2⟩

/-- C5 counterexample: in the deadtime fragment for board 7 at the
scenario-3 timestamp, the trailing 2 bytes of the 24-byte header hold the
baseline 0 (not the board id, whose encoding is `[7, 0]`), and the payload
(the bytes after the 24-byte header) is not all zero: the board id sits in
its first two bytes. -/
theorem deadtime_bid_not_in_header :
    ((GenerateArtificialDeadtime ⟨220⟩ ((150323937280 : Nat) : Int) 7).drop 22).take 2 = [0, 0] ∧
    le_int 2 7 ≠ [0, 0] ∧
    ¬ (∀ b ∈ (GenerateArtificialDeadtime ⟨220⟩ ((150323937280 : Nat) : Int) 7).drop 24, b = 0) := by
  decide

/-- C5 (amended): every artificial-deadtime fragment has channel label 790
(bytes 14-16), pulse length `payload_bytes/2` (bytes 8-12 and 16-20),
fragment index 0 (bytes 20-22), sample width 10 (bytes 12-14), baseline 0
in the trailing two header bytes (22-24); the board id occupies the two
bytes immediately after the 24-byte header and every byte after those is
zero. -/
theorem deadtime_fragment_layout (fb : Nat) (ts : Int) (bid : Int) :
    ((GenerateArtificialDeadtime ⟨fb⟩ ts bid).drop 8).take 4 = le_bytes 4 (fb >>> 1) ∧
    ((GenerateArtificialDeadtime ⟨fb⟩ ts bid).drop 12).take 2 = le_bytes 2 10 ∧
    ((GenerateArtificialDeadtime ⟨fb⟩ ts bid).drop 14).take 2 = le_bytes 2 790 ∧
    ((GenerateArtificialDeadtime ⟨fb⟩ ts bid).drop 16).take 4 = le_bytes 4 (fb >>> 1) ∧
    ((GenerateArtificialDeadtime ⟨fb⟩ ts bid).drop 20).take 2 = le_bytes 2 0 ∧
    ((GenerateArtificialDeadtime ⟨fb⟩ ts bid).drop 22).take 2 = le_bytes 2 0 ∧
    ((GenerateArtificialDeadtime ⟨fb⟩ ts bid).drop 24).take 2 = le_int 2 bid ∧
    ∀ b ∈ (GenerateArtificialDeadtime ⟨fb⟩ ts bid).drop 26, b = 0 :=
  ⟨rfl, rfl, rfl, rfl, rfl, rfl, rfl,
   fun b hb => List.eq_of_mem_replicate
     (show b ∈ List.replicate (fb + 24 - 26) (0 : Nat) from hb)⟩

/-- C7: an event whose second header word has the board-fail bit 0x04000000
set yields exactly one artificial-deadtime fragment at global time
`((clock_counter << 31) | event_time) * ns_per_clock`, a `CheckError(bid)`
callback, a fail-counter increment, no decoded channels, and return value 4. -/
theorem processEvent_board_fail
    (cfg : Cfg) (fmt : DataFormat) (chmap : Int → Nat → Int) (buff : List Nat)
    (total_words clock_counter header_time : Nat) (bid : Int)
    (h : (buff.getD 1 0) % 2 ^ 32 &&& 0x4000000 ≠ 0) :
    ProcessEvent cfg fmt chmap buff total_words clock_counter header_time bid =
      ⟨4, [],
       [((((clock_counter <<< 31) ||| ((buff.getD 3 0) % 2 ^ 32 &&& 0x7FFFFFFF) : Nat) : Int)
           * fmt.ns_per_clock,
         GenerateArtificialDeadtime cfg
           ((((clock_counter <<< 31) ||| ((buff.getD 3 0) % 2 ^ 32 &&& 0x7FFFFFFF) : Nat) : Int)
             * fmt.ns_per_clock)
           bid)],
       true, true, false, false⟩ := by
  have hmask : (buff.getD 3 0) % 2 ^ 32 &&& 0x7FFFFFFF ≤ 0x7FFFFFFF := Nat.and_le_right
  have het : (buff.getD 3 0) % 2 ^ 32 &&& 0x7FFFFFFF < 2 ^ 31 := by
    have : (0x7FFFFFFF : Nat) < 2 ^ 31 := by norm_num
    omega
  rw [shl31_lor _ _ het]
  simp only [ProcessEvent, fmtGet_ns_per_clock]
  rw [if_pos h]
  exact rfl

/-- C7 witness: spec scenario 3 (board-fail bit, event_time 0x2000,
clock_counter 7, ns_per_clock 10). -/
theorem processEvent_board_fail_witness :
    ((([0xA0000004, 0x04000000, 0, 0x2000] : List Nat).getD 1 0) % 2 ^ 32 &&& 0x4000000 ≠ 0) ∧
    ProcessEvent ⟨220⟩ fmtDefault10 chmapId [0xA0000004, 0x04000000, 0, 0x2000] 4 7 0 5 =
      ⟨4, [], [((150323937280 : Int),
                GenerateArtificialDeadtime ⟨220⟩ (150323937280 : Int) 5)],
       true, true, false, false⟩ :=
  ⟨by decide,
   processEvent_board_fail ⟨220⟩ fmtDefault10 chmapId [0xA0000004, 0x04000000, 0, 0x2000]
     4 7 0 5 (by decide)⟩

/-- C1 (code defect): in spec scenario 1 the code writes global time 0 into
the fragment header, not `ns_per_clock * (time_msb + channel_time) = 40960`:
`ProcessChannel` looks the clock period up under the key `"ns_per_clk"`,
which is not among the entries of the board's `DataFormatDefinition`
(`ProcessEvent` itself uses the documented key `"ns_per_clock"`), so the
`std::map` lookup value-initializes to 0. -/
theorem scenario1_fragment_time_is_zero :
    (ProcessEvent ⟨16⟩ fmtDefault10 chmapId s1words 12 0 0x1000 0).frags.length = 2 ∧
    ((ProcessEvent ⟨16⟩ fmtDefault10 chmapId s1words 12 0 0x1000 0).frags.getD 0 []).take 8 =
      le_bytes 8 0 ∧
    ((ProcessEvent ⟨16⟩ fmtDefault10 chmapId s1words 12 0 0x1000 0).frags.getD 0 []).take 8 ≠
      le_bytes 8 (10 * 0x1000) ∧
    fmtGet fmtDefault10 "ns_per_clk" = 0 ∧
    fmtDefault10.ns_per_clock * ((0 <<< 31) + 0x1000 : Nat) = (40960 : Int) := by
  decide

/-- C3 counterexample: with the odd configured payload size 3, the data
fragment the formatter deposits is 28 bytes, not `payload_bytes + 24 = 27`
(the 2-byte zero filler overshoots the target size by one byte). -/
theorem odd_payload_fragment_oversize :
    ((ProcessEvent ⟨3⟩ fmtDefault10 chmapId s1small 5 0 0 1).frags.getD 0 []).length = 28 ∧
    (3 : Nat) + 24 ≠ 28 := by
  decide

/-- C6: for a DPP-DAW channel with `channel_header_words ≤ 2`, the decode
proceeds with the local clock counter decremented exactly when
`channel_time > 1.5e9 ∧ header_time < 5e8 ∧ clock_counter ≠ 0`, incremented
exactly when `channel_time < 5e8 ∧ header_time > 1.5e9`, otherwise
unchanged, and the channel's `time_msb` is the adjusted counter shifted
left 31; the second conjunct characterizes the three mutually exclusive
cases of the adjustment. -/
theorem dpp_clock_rollover
    (cfg : Cfg) (fmt : DataFormat) (chmap : Int → Nat → Int) (buff : List Nat)
    (wie : Nat) (bid : Int) (ch : Nat) (ht et cc mask : Nat)
    (h1 : 0 < fmt.channel_header_words) (h2 : fmt.channel_header_words ≤ 2)
    (h3 : (buff.getD 0 0) % 2 ^ 32 &&& 0x7FFFFF ≤ wie)
    (h4 : fmt.channel_header_words < (((buff.getD 0 0) % 2 ^ 32 &&& 0x7FFFFF : Nat) : Int)) :
    ProcessChannel cfg fmt chmap buff wie bid ch ht et cc mask =
      processTail cfg fmt chmap buff bid ch ((buff.getD 0 0) % 2 ^ 32 &&& 0x7FFFFF)
        (spec_clock_adjust cc ht ((buff.getD 1 0) % 2 ^ 32 &&& 0x7FFFFFFF) <<< 31)
        ((buff.getD 1 0) % 2 ^ 32 &&& 0x7FFFFFFF)
        (if fmt.channel_time_msb_idx = 2
          then (((buff.getD 2 0) % 2 ^ 32) >>> 16) &&& 0x3FFF else 0) ∧
    (spec_clock_adjust cc ht ((buff.getD 1 0) % 2 ^ 32 &&& 0x7FFFFFFF) = cc - 1 ∧
        (1500000000 < (buff.getD 1 0) % 2 ^ 32 &&& 0x7FFFFFFF ∧ ht < 500000000 ∧ cc ≠ 0) ∨
      spec_clock_adjust cc ht ((buff.getD 1 0) % 2 ^ 32 &&& 0x7FFFFFFF) = cc + 1 ∧
        ((buff.getD 1 0) % 2 ^ 32 &&& 0x7FFFFFFF < 500000000 ∧ 1500000000 < ht) ∨
      spec_clock_adjust cc ht ((buff.getD 1 0) % 2 ^ 32 &&& 0x7FFFFFFF) = cc ∧
        ¬ (1500000000 < (buff.getD 1 0) % 2 ^ 32 &&& 0x7FFFFFFF ∧ ht < 500000000 ∧ cc ≠ 0) ∧
        ¬ ((buff.getD 1 0) % 2 ^ 32 &&& 0x7FFFFFFF < 500000000 ∧ 1500000000 < ht)) := by
  constructor
  · have hhead : channelHead fmt buff wie ht et cc mask =
        some ((buff.getD 0 0) % 2 ^ 32 &&& 0x7FFFFF,
          spec_clock_adjust cc ht ((buff.getD 1 0) % 2 ^ 32 &&& 0x7FFFFFFF) <<< 31,
          (buff.getD 1 0) % 2 ^ 32 &&& 0x7FFFFFFF,
          if fmt.channel_time_msb_idx = 2
            then (((buff.getD 2 0) % 2 ^ 32) >>> 16) &&& 0x3FFF else 0) := by
      simp only [channelHead, spec_clock_adjust]
      rw [if_pos h1, if_neg (not_lt.mpr h3), if_neg (not_le.mpr h4), if_pos h2]
    simp [ProcessChannel, hhead]
  · simp only [spec_clock_adjust]
    split_ifs with ha hb
    · exact Or.inl ⟨rfl, ha⟩
    · exact Or.inr (Or.inl ⟨rfl, hb⟩)
    · exact Or.inr (Or.inr ⟨rfl, ha, hb⟩)

/-- C6 witness: spec scenario 4 (`header_time = 0x10000000`,
`channel_time = 0x70000000`, `clock_counter = 5`): the local counter is
decremented to 4 and `time_msb = 4 <<< 31`. -/
theorem dpp_clock_rollover_witness :
    (0 : Int) < fmtDpp2.channel_header_words ∧
    fmtDpp2.channel_header_words ≤ 2 ∧
    (([0x5, 0x70000000, 0, 0, 0] : List Nat).getD 0 0) % 2 ^ 32 &&& 0x7FFFFF ≤ 5 ∧
    fmtDpp2.channel_header_words <
      (((([0x5, 0x70000000, 0, 0, 0] : List Nat).getD 0 0) % 2 ^ 32 &&& 0x7FFFFF : Nat) : Int) ∧
    ProcessChannel ⟨220⟩ fmtDpp2 chmapId [0x5, 0x70000000, 0, 0, 0] 5 0 0 0x10000000 0 5 1 =
      processTail ⟨220⟩ fmtDpp2 chmapId [0x5, 0x70000000, 0, 0, 0] 0 0
        ((([0x5, 0x70000000, 0, 0, 0] : List Nat).getD 0 0) % 2 ^ 32 &&& 0x7FFFFF)
        (spec_clock_adjust 5 0x10000000
          ((([0x5, 0x70000000, 0, 0, 0] : List Nat).getD 1 0) % 2 ^ 32 &&& 0x7FFFFFFF) <<< 31)
        ((([0x5, 0x70000000, 0, 0, 0] : List Nat).getD 1 0) % 2 ^ 32 &&& 0x7FFFFFFF)
        (if fmtDpp2.channel_time_msb_idx = 2
          then (((([0x5, 0x70000000, 0, 0, 0] : List Nat).getD 2 0) % 2 ^ 32) >>> 16) &&& 0x3FFF
          else 0) ∧
    spec_clock_adjust 5 0x10000000 0x70000000 = 4 :=
  ⟨by decide, by decide, by decide, by decide,
   (dpp_clock_rollover ⟨220⟩ fmtDpp2 chmapId [0x5, 0x70000000, 0, 0, 0] 5 0 0 0x10000000 0 5 1
     (by decide) (by decide) (by decide) (by decide)).1,
   by decide⟩

/-- C8: a channel whose scanned payload contains a word with top nibble 0xA
makes `ProcessChannel` emit exactly one artificial-deadtime fragment at the
channel's computed global time, emit no data fragments, and return -1; and
an immediately following `-1` return makes the event's channel loop abandon
every remaining channel. -/
theorem caen_sentinel_abort
    (cfg : Cfg) (fmt : DataFormat) (chmap : Int → Nat → Int) (buff : List Nat)
    (wie : Nat) (bid : Int) (ch : Nat) (ht et cc mask : Nat)
    (cw tm ct bl : Nat)
    (hhead : channelHead fmt buff wie ht et cc mask = some (cw, tm, ct, bl))
    (hsent : caenSentinel buff (u32n fmt.channel_header_words) cw = true) :
    ProcessChannel cfg fmt chmap buff wie bid ch ht et cc mask =
      ⟨-1, [],
       [(fmtGet fmt "ns_per_clk" * ((tm + ct : Nat) : Int),
         GenerateArtificialDeadtime cfg (fmtGet fmt "ns_per_clk" * ((tm + ct : Nat) : Int)) bid)],
       false, false⟩ ∧
    ∀ (buffE rest : List Nat) (idx : Nat), buffE.drop idx = buff →
      evChannels cfg fmt chmap buffE wie bid ht et cc mask (ch :: rest) idx =
        ⟨idx, [],
         [(fmtGet fmt "ns_per_clk" * ((tm + ct : Nat) : Int),
           GenerateArtificialDeadtime cfg (fmtGet fmt "ns_per_clk" * ((tm + ct : Nat) : Int)) bid)],
         false, false, false, false⟩ := by
  have hpc : ProcessChannel cfg fmt chmap buff wie bid ch ht et cc mask =
      ⟨-1, [],
       [(fmtGet fmt "ns_per_clk" * ((tm + ct : Nat) : Int),
         GenerateArtificialDeadtime cfg (fmtGet fmt "ns_per_clk" * ((tm + ct : Nat) : Int)) bid)],
       false, false⟩ := by
    simp [ProcessChannel, hhead, processTail, hsent]
  refine ⟨hpc, ?_⟩
  intro buffE rest idx hd
  simp only [evChannels]
  rw [hd, hpc]
  simp

/-- C9: inside `ProcessChannel`, once the decode reaches the channel-map
lookup (decoded header, no payload sentinel), a lookup value of -1 throws
the fatal `runtime_error` before any fragment is emitted and any other
value does not throw; and in full generality the decode throws only on a
-1 lookup, with no fragments and no deadtime emitted. -/
theorem channel_map_lookup_fatal :
    (∀ (cfg : Cfg) (fmt : DataFormat) (chmap : Int → Nat → Int) (buff : List Nat)
       (wie : Nat) (bid : Int) (ch : Nat) (ht et cc mask : Nat) (cw tm ct bl : Nat),
      channelHead fmt buff wie ht et cc mask = some (cw, tm, ct, bl) →
      caenSentinel buff (u32n fmt.channel_header_words) cw = false →
      ((chmap bid ch = -1 ↔
          (ProcessChannel cfg fmt chmap buff wie bid ch ht et cc mask).fatalError = true) ∧
       (chmap bid ch = -1 →
          ProcessChannel cfg fmt chmap buff wie bid ch ht et cc mask = ⟨-1, [], [], true, false⟩))) ∧
    (∀ (cfg : Cfg) (fmt : DataFormat) (chmap : Int → Nat → Int) (buff : List Nat)
       (wie : Nat) (bid : Int) (ch : Nat) (ht et cc mask : Nat),
      (ProcessChannel cfg fmt chmap buff wie bid ch ht et cc mask).fatalError = true →
      chmap bid ch = -1 ∧
        (ProcessChannel cfg fmt chmap buff wie bid ch ht et cc mask).frags = [] ∧
        (ProcessChannel cfg fmt chmap buff wie bid ch ht et cc mask).deadtime = []) := by
  constructor
  · intro cfg fmt chmap buff wie bid ch ht et cc mask cw tm ct bl hhead hsent
    by_cases hcl : chmap bid ch = -1
    · constructor
      · constructor
        · intro _
          simp [ProcessChannel, hhead, processTail, hsent, hcl]
        · intro _
          exact hcl
      · intro _
        simp [ProcessChannel, hhead, processTail, hsent, hcl]
    · constructor
      · constructor
        · intro hx
          exact absurd hx hcl
        · intro hfat
          exfalso
          have : (ProcessChannel cfg fmt chmap buff wie bid ch ht et cc mask).fatalError = false := by
            simp [ProcessChannel, hhead, processTail, hsent, hcl, apply_ite ChanOut.fatalError]
          rw [this] at hfat
          exact Bool.false_ne_true hfat
      · intro hx
        exact absurd hx hcl
  · intro cfg fmt chmap buff wie bid ch ht et cc mask hfat
    rcases hh : channelHead fmt buff wie ht et cc mask with _ | ⟨cw, tm, ct, bl⟩
    · exfalso
      have : (ProcessChannel cfg fmt chmap buff wie bid ch ht et cc mask).fatalError = false := by
        simp [ProcessChannel, hh]
      rw [this] at hfat
      exact Bool.false_ne_true hfat
    · by_cases hsent : caenSentinel buff (u32n fmt.channel_header_words) cw = true
      · exfalso
        have : (ProcessChannel cfg fmt chmap buff wie bid ch ht et cc mask).fatalError = false := by
          simp [ProcessChannel, hh, processTail, hsent]
        rw [this] at hfat
        exact Bool.false_ne_true hfat
      · have hsf : caenSentinel buff (u32n fmt.channel_header_words) cw = false :=
          Bool.not_eq_true _ ▸ (by simpa using hsent)
        by_cases hcl : chmap bid ch = -1
        · refine ⟨hcl, ?_, ?_⟩ <;>
            simp [ProcessChannel, hh, processTail, hsf, hcl]
        · exfalso
          have : (ProcessChannel cfg fmt chmap buff wie bid ch ht et cc mask).fatalError = false := by
            simp [ProcessChannel, hh, processTail, hsf, hcl, apply_ite ChanOut.fatalError]
          rw [this] at hfat
          exact Bool.false_ne_true hfat

theorem append_replicate_getD (l : List Nat) (m j : Nat) (h : l.length ≤ j) :
    (l ++ List.replicate m (0 : Nat)).getD j 0 = 0 := by
  rw [List.getD_eq_getElem?_getD, List.getElem?_append_right h]
  have := replicate_getD m (j - l.length)
  rwa [List.getD_eq_getElem?_getD] at this

theorem num_frags_mul_ge (fs S : Nat) (h : 0 < fs) :
    S ≤ (S / fs + (if S % fs ≠ 0 then 1 else 0)) * fs := by
  have h1 := Nat.div_add_mod S fs
  have hr := Nat.mod_lt S h
  set q := S / fs with hq
  set r := S % fs with hrr
  rcases Nat.eq_zero_or_pos r with h0 | h0
  · have e : q * fs = fs * q := by ring
    simp [h0]
    omega
  · have e : (q + 1) * fs = fs * q + fs := by ring
    simp [Nat.pos_iff_ne_zero.mp h0]
    omega

theorem num_frags_pred_mul_lt (fs S : Nat) (h : 0 < fs) (hS : 0 < S) :
    ((S / fs + (if S % fs ≠ 0 then 1 else 0)) - 1) * fs < S := by
  rcases Nat.eq_zero_or_pos (S % fs) with h0 | h0
  · have h1 := Nat.div_add_mod S fs
    have hq1 : 1 ≤ S / fs := by
      rcases Nat.eq_zero_or_pos (S / fs) with hq0 | hq0
      · rw [hq0] at h1
        simp at h1
        omega
      · exact hq0
    obtain ⟨p, hp⟩ : ∃ p, S / fs = p + 1 := ⟨S / fs - 1, by omega⟩
    rw [hp] at h1 ⊢
    rw [h0] at h1
    have e1 : fs * (p + 1) = fs * p + fs := by ring
    have e2 : p * fs = fs * p := by ring
    simp [h0]
    omega
  · have h1 := Nat.div_add_mod S fs
    have e2 : (S / fs) * fs = fs * (S / fs) := by ring
    simp [Nat.pos_iff_ne_zero.mp h0]
    omega

theorem generate_deadtime_length (cfg : Cfg) (ts bid : Int)
    (h : 2 ≤ cfg.fragmentBytes) :
    (GenerateArtificialDeadtime cfg ts bid).length = cfg.fragmentBytes + 24 := by
  have hlen : (le_int 8 ts ++ le_bytes 4 (cfg.fragmentBytes >>> 1) ++ le_bytes 2 10
      ++ le_bytes 2 790 ++ le_bytes 4 (cfg.fragmentBytes >>> 1) ++ le_bytes 2 0
      ++ le_bytes 2 0 ++ le_int 2 bid).length = 26 := by
    simp [le_bytes_length, le_int_length]
  rw [GenerateArtificialDeadtime, padTo1_length]
  · simp [straxHeaderSize]
  · rw [hlen]
    simp [straxHeaderSize]
    omega

theorem processTail_frag_shape (cfg : Cfg) (fmt : DataFormat) (chmap : Int → Nat → Int)
    (buff : List Nat) (bid : Int) (ch : Nat) (cw tm ct bl : Nat)
    (hfb2 : 2 ≤ cfg.fragmentBytes) (hfbe : 2 ∣ cfg.fragmentBytes)
    (hfb32 : cfg.fragmentBytes < 2 ^ 31) :
    ∀ f ∈ (processTail cfg fmt chmap buff bid ch cw tm ct bl).frags,
      f.length = cfg.fragmentBytes + 24 ∧
      ∀ j, 24 + 2 * decodeLE ((f.drop 8).take 4) ≤ j → f.getD j 0 = 0 := by
  intro f hf
  by_cases hs : caenSentinel buff (u32n fmt.channel_header_words) cw = true
  · simp [processTail, hs] at hf
  · rw [Bool.not_eq_true] at hs
    by_cases hcl : chmap bid ch = -1
    · simp [processTail, hs, hcl] at hf
    · simp only [processTail, hs, Bool.false_eq_true, if_false, hcl, if_neg hcl] at hf
      by_cases hdg : fragLoopDiverges
          ((u32n ((cw : Int) - fmt.channel_header_words) * 2) % 2 ^ 32 / (cfg.fragmentBytes >>> 1)
            + (if (u32n ((cw : Int) - fmt.channel_header_words) * 2) % 2 ^ 32
                  % (cfg.fragmentBytes >>> 1) ≠ 0 then 1 else 0))
      · rw [if_pos hdg] at hf
        simp at hf
      rw [if_neg hdg] at hf
      simp only [List.mem_map, List.mem_range] at hf
      obtain ⟨i, hi0, hfi⟩ := hf
      subst hfi
      -- abbreviations mirroring the source locals
      set S : Nat :=
        (u32n ((cw : Int) - fmt.channel_header_words) * 2) % 2 ^ 32 with hS
      set fs : Nat := cfg.fragmentBytes >>> 1 with hfs
      set n : Nat := S / fs + (if S % fs ≠ 0 then 1 else 0) with hn
      have hi : i < n := by
        have h2 := hi0
        unfold fragLoopCount at h2
        split at h2
        · exact h2
        · omega
      have hfs2 : fs = cfg.fragmentBytes / 2 := by rw [hfs, Nat.shiftRight_one]
      have hfspos : 0 < fs := by
        rw [hfs2]
        omega
      have hfsfb : fs * 2 = cfg.fragmentBytes := by
        rw [hfs2]
        exact Nat.div_mul_cancel hfbe
      have hS32 : S < 2 ^ 32 := by
        rw [hS]
        exact Nat.mod_lt _ (by norm_num)
      set st : Nat := if i = n - 1 then S - i * fs else fs with hst
      have hstle : st ≤ fs := by
        rw [hst]
        split_ifs with hlast
        · have hSn : S ≤ n * fs := num_frags_mul_ge fs S hfspos
          rw [hlast]
          have hn0 : 0 < n := Nat.pos_of_ne_zero (fun hz => by simp [hz] at hi)
          have e1 : (n - 1) * fs + fs = n * fs := by
            have hn1 : n - 1 + 1 = n := by omega
            calc (n - 1) * fs + fs = (n - 1 + 1) * fs := by ring
              _ = n * fs := by rw [hn1]
          omega
        · exact le_refl fs
      have hst32 : st < 2 ^ 32 := lt_of_le_of_lt hstle (by omega)
      set payload : List Nat :=
        ((wordBytes (buff.drop (u32n fmt.channel_header_words))).drop
          (i * fs * 2)).take (st * 2) with hpay
      have hpllen : payload.length ≤ st * 2 := by
        rw [hpay]
        simp
      have hmin2 : ∀ a b : Nat, 2 ∣ a → 2 ∣ b → 2 ∣ min a b := by
        intro a b ha hb
        rcases Nat.le_total a b with hab | hab
        · rwa [min_eq_left hab]
        · rwa [min_eq_right hab]
      have hpleven : 2 ∣ payload.length := by
        rw [hpay]
        simp only [List.length_take, List.length_drop, wordBytes_length]
        exact hmin2 _ _ ⟨st, by ring⟩
          (Nat.dvd_sub' ⟨2 * (buff.length - u32n fmt.channel_header_words), by ring⟩
            ⟨i * fs, by ring⟩)
      have hplfb : payload.length ≤ cfg.fragmentBytes := by
        have : st * 2 ≤ fs * 2 := by omega
        omega
      set hdr : List Nat :=
        le_bytes 8 (u64n (fmtGet fmt "ns_per_clk" * ((tm + ct : Nat) : Int)
            + ((fs * u16n fmt.ns_per_sample * i : Nat) : Int)))
          ++ le_bytes 4 st ++ le_bytes 2 (u16n fmt.ns_per_sample)
          ++ le_int 2 (chmap bid ch) ++ le_bytes 4 S ++ le_bytes 2 (i % 2 ^ 16)
          ++ le_bytes 2 bl with hhdr
      have hhdrlen : (hdr ++ payload).length = 24 + payload.length := by
        rw [hhdr]
        simp [le_bytes_length, le_int_length]
        omega
      constructor
      · rw [padTo2_length]
        · simp [straxHeaderSize]
        · rw [hhdrlen]
          simp only [straxHeaderSize]
          omega
        · rw [hhdrlen]
          simp only [straxHeaderSize]
          have e : cfg.fragmentBytes + 24 - (24 + payload.length)
              = cfg.fragmentBytes - payload.length := by omega
          rw [e]
          exact Nat.dvd_sub' hfbe hpleven
      · intro j hj
        have hslice : ((padTo2 (cfg.fragmentBytes + straxHeaderSize) (hdr ++ payload)).drop 8).take 4
            = le_bytes 4 st := by
          rw [hhdr]
          rfl
        rw [hslice] at hj
        rw [decodeLE_le_bytes 4 st (by norm_num; omega)] at hj
        rw [padTo2]
        apply append_replicate_getD
        rw [hhdrlen]
        omega

theorem processChannel_frag_shape (cfg : Cfg) (fmt : DataFormat) (chmap : Int → Nat → Int)
    (buff : List Nat) (wie : Nat) (bid : Int) (ch : Nat) (ht et cc mask : Nat)
    (hfb2 : 2 ≤ cfg.fragmentBytes) (hfbe : 2 ∣ cfg.fragmentBytes)
    (hfb32 : cfg.fragmentBytes < 2 ^ 31) :
    ∀ f ∈ (ProcessChannel cfg fmt chmap buff wie bid ch ht et cc mask).frags,
      f.length = cfg.fragmentBytes + 24 ∧
      ∀ j, 24 + 2 * decodeLE ((f.drop 8).take 4) ≤ j → f.getD j 0 = 0 := by
  rcases hh : channelHead fmt buff wie ht et cc mask with _ | ⟨cw, tm, ct, bl⟩
  · simp [ProcessChannel, hh]
  · simp only [ProcessChannel, hh]
    exact processTail_frag_shape cfg fmt chmap buff bid ch cw tm ct bl hfb2 hfbe hfb32

theorem processChannel_deadtime_shape (cfg : Cfg) (fmt : DataFormat)
    (chmap : Int → Nat → Int) (buff : List Nat) (wie : Nat) (bid : Int) (ch : Nat)
    (ht et cc mask : Nat) :
    ∀ p ∈ (ProcessChannel cfg fmt chmap buff wie bid ch ht et cc mask).deadtime,
      ∃ ts, p = (ts, GenerateArtificialDeadtime cfg ts bid) := by
  intro p hp
  rcases hh : channelHead fmt buff wie ht et cc mask with _ | ⟨cw, tm, ct, bl⟩
  · simp [ProcessChannel, hh] at hp
  · simp only [ProcessChannel, hh] at hp
    by_cases hs : caenSentinel buff (u32n fmt.channel_header_words) cw = true
    · simp only [processTail, hs, if_true] at hp
      simp at hp
      exact ⟨fmtGet fmt "ns_per_clk" * ((tm + ct : Nat) : Int), by simp [hp]⟩
    · rw [Bool.not_eq_true] at hs
      by_cases hcl : chmap bid ch = -1
      · simp [processTail, hs, hcl] at hp
      · simp [processTail, hs, hcl, apply_ite ChanOut.deadtime] at hp

theorem evChannels_frag_lift (cfg : Cfg) (fmt : DataFormat) (chmap : Int → Nat → Int)
    (buff : List Nat) (wie : Nat) (bid : Int) (ht et cc mask : Nat)
    (P : List Nat → Prop)
    (hP : ∀ (cbuf : List Nat) (ch : Nat),
      ∀ f ∈ (ProcessChannel cfg fmt chmap cbuf wie bid ch ht et cc mask).frags, P f) :
    ∀ (chans : List Nat) (idx : Nat),
      ∀ f ∈ (evChannels cfg fmt chmap buff wie bid ht et cc mask chans idx).frags, P f := by
  intro chans
  induction chans with
  | nil =>
    intro idx f hf
    simp [evChannels] at hf
  | cons ch rest ih =>
    intro idx f hf
    simp only [evChannels] at hf
    split_ifs at hf
    · exact hP _ _ f hf
    · exact hP _ _ f hf
    · exact hP _ _ f hf
    · simp only [List.mem_append] at hf
      rcases hf with hf | hf
      · exact hP _ _ f hf
      · exact ih _ f hf

theorem evChannels_deadtime_lift (cfg : Cfg) (fmt : DataFormat) (chmap : Int → Nat → Int)
    (buff : List Nat) (wie : Nat) (bid : Int) (ht et cc mask : Nat)
    (Q : Int × List Nat → Prop)
    (hQ : ∀ (cbuf : List Nat) (ch : Nat),
      ∀ p ∈ (ProcessChannel cfg fmt chmap cbuf wie bid ch ht et cc mask).deadtime, Q p) :
    ∀ (chans : List Nat) (idx : Nat),
      ∀ p ∈ (evChannels cfg fmt chmap buff wie bid ht et cc mask chans idx).deadtime, Q p := by
  intro chans
  induction chans with
  | nil =>
    intro idx p hp
    simp [evChannels] at hp
  | cons ch rest ih =>
    intro idx p hp
    simp only [evChannels] at hp
    split_ifs at hp
    · exact hQ _ _ p hp
    · exact hQ _ _ p hp
    · exact hQ _ _ p hp
    · simp only [List.mem_append] at hp
      rcases hp with hp | hp
      · exact hQ _ _ p hp
      · exact ih _ p hp

/-- C3 (amended): for every even configured payload size (at least 2),
every fragment the formatter deposits — data fragment or deadtime
fragment, over an arbitrary event — is exactly `payload_bytes + 24` bytes,
and every data-fragment byte past the samples recorded in its length field
is zero (the zero-padded tail).  For an odd payload size the 2-byte filler
overshoots by one byte (see the counterexample). -/
theorem fragment_size_invariant (cfg : Cfg) (fmt : DataFormat) (chmap : Int → Nat → Int)
    (buff : List Nat) (total_words clock_counter header_time : Nat) (bid : Int)
    (hfb2 : 2 ≤ cfg.fragmentBytes) (hfbe : 2 ∣ cfg.fragmentBytes)
    (hfb32 : cfg.fragmentBytes < 2 ^ 31) :
    (∀ f ∈ (ProcessEvent cfg fmt chmap buff total_words clock_counter header_time bid).frags,
      f.length = cfg.fragmentBytes + 24 ∧
      ∀ j, 24 + 2 * decodeLE ((f.drop 8).take 4) ≤ j → f.getD j 0 = 0) ∧
    (∀ p ∈ (ProcessEvent cfg fmt chmap buff total_words clock_counter header_time bid).deadtime,
      p.2.length = cfg.fragmentBytes + 24) := by
  by_cases hbf : (buff.getD 1 0) % 2 ^ 32 &&& 0x4000000 ≠ 0
  · constructor
    · intro f hf
      simp only [ProcessEvent] at hf
      rw [if_pos hbf] at hf
      simp at hf
    · intro p hp
      simp only [ProcessEvent] at hp
      rw [if_pos hbf] at hp
      simp at hp
      rw [hp]
      exact generate_deadtime_length cfg _ bid hfb2
  · constructor
    · intro f hf
      simp only [ProcessEvent] at hf
      rw [if_neg hbf] at hf
      refine evChannels_frag_lift _ _ _ _ _ _ _ _ _ _
        (fun g => g.length = cfg.fragmentBytes + 24 ∧
          ∀ j, 24 + 2 * decodeLE ((g.drop 8).take 4) ≤ j → g.getD j 0 = 0) ?_ _ _ f hf
      intro cbuf ch
      exact processChannel_frag_shape cfg fmt chmap cbuf _ bid ch _ _ _ _ hfb2 hfbe hfb32
    · intro p hp
      simp only [ProcessEvent] at hp
      rw [if_neg hbf] at hp
      refine evChannels_deadtime_lift _ _ _ _ _ _ _ _ _ _
        (fun q => q.2.length = cfg.fragmentBytes + 24) ?_ _ _ p hp
      intro cbuf ch q hq
      obtain ⟨ts, rfl⟩ := processChannel_deadtime_shape cfg fmt chmap cbuf _ bid ch _ _ _ _ q hq
      exact generate_deadtime_length cfg ts bid hfb2

/-- C3 witness: the invariant holds at the default payload size 220 for the
scenario-1 event. -/
theorem fragment_size_invariant_witness :
    ((2 : Nat) ≤ 220 ∧ 2 ∣ 220 ∧ 220 < 2 ^ 31) ∧
    ((∀ f ∈ (ProcessEvent ⟨220⟩ fmtDefault10 chmapId s1words 12 0 0x1000 0).frags,
      f.length = 220 + 24 ∧
      ∀ j, 24 + 2 * decodeLE ((f.drop 8).take 4) ≤ j → f.getD j 0 = 0) ∧
    (∀ p ∈ (ProcessEvent ⟨220⟩ fmtDefault10 chmapId s1words 12 0 0x1000 0).deadtime,
      p.2.length = 220 + 24)) :=
  ⟨⟨by decide, by decide, by norm_num⟩,
   fragment_size_invariant ⟨220⟩ fmtDefault10 chmapId s1words 12 0 0x1000 0
     (by decide) (by decide) (by norm_num)⟩

theorem sum_map_const_range (c : Nat) : ∀ m, ((List.range m).map (fun _ => c)).sum = m * c := by
  intro m
  induction m with
  | zero => simp
  | succ k ih =>
    rw [List.range_succ, List.map_append, List.sum_append, ih]
    simp [Nat.succ_mul]


/-- C4 (amended): a successfully decoded channel with `pulse_samples = S`
samples, provided `n = ceil(S / (payload_bytes/2))` fits the loop's
`uint16_t` counter (`n < 2^16`), is split into exactly `n` fragments, the
loop terminating; each non-final fragment carries `payload_bytes/2` samples
and the final one the remainder (written into the per-fragment length
field, bytes 8-12, with the fragment index in bytes 20-22); the
per-fragment sample counts sum to `S`; and the payload bytes of the
fragments, concatenated in index order and truncated to the per-fragment
sample counts, reproduce the channel's pulse words exactly.  For
`2^16 ≤ n < 2^31` the counter wraps and the loop never terminates (see the
counterexample). -/
theorem pulse_fragmentation_roundtrip
    (cfg : Cfg) (fmt : DataFormat) (chmap : Int → Nat → Int) (buff : List Nat)
    (wie : Nat) (bid : Int) (ch : Nat) (ht et cc mask : Nat)
    (cw tm ct bl chwN S fs n : Nat) (size : Nat → Nat) (out : ChanOut)
    (hout : out = ProcessChannel cfg fmt chmap buff wie bid ch ht et cc mask)
    (hhead : channelHead fmt buff wie ht et cc mask = some (cw, tm, ct, bl))
    (hchw : fmt.channel_header_words = (chwN : Int))
    (hchw32 : chwN < 2 ^ 32)
    (hcw : chwN ≤ cw) (hcwb : cw ≤ buff.length)
    (hS : S = (cw - chwN) * 2) (hS32 : S < 2 ^ 32)
    (hfs : fs = cfg.fragmentBytes / 2)
    (hn : n = (S + fs - 1) / fs)
    (hsize : ∀ i, size i = if i = n - 1 then S - i * fs else fs)
    (hscan : caenSentinel buff chwN cw = false)
    (hcl : chmap bid ch ≠ -1)
    (hfb2 : 2 ≤ cfg.fragmentBytes) (hfbe : 2 ∣ cfg.fragmentBytes)
    (hn16 : n < 2 ^ 16) :
    out.frags.length = n ∧
    out.ret = (cw : Int) ∧ out.deadtime = [] ∧ out.fatalError = false ∧
    out.diverges = false ∧
    (∀ i, i < n →
      ((out.frags.getD i []).drop 8).take 4 = le_bytes 4 (size i) ∧
      ((out.frags.getD i []).drop 20).take 2 = le_bytes 2 (i % 2 ^ 16)) ∧
    ((List.range n).map size).sum = S ∧
    ((List.range n).map
        (fun i => ((out.frags.getD i []).drop 24).take (size i * 2))).flatten
      = wordBytes ((buff.drop chwN).take (cw - chwN)) := by
  subst hout
  have hfspos : 0 < fs := by
    rw [hfs]
    omega
  have hss : u32n fmt.channel_header_words = chwN := by
    rw [hchw]
    unfold u32n
    omega
  have hcwN32 : cw - chwN < 2 ^ 32 := by omega
  have hsampS : (u32n ((cw : Int) - fmt.channel_header_words) * 2) % 2 ^ 32 = S := by
    rw [hchw]
    have h1 : (cw : Int) - (chwN : Int) = ((cw - chwN : Nat) : Int) := by omega
    rw [h1]
    have h2 : u32n ((cw - chwN : Nat) : Int) = cw - chwN := by
      unfold u32n
      omega
    rw [h2, ← hS]
    exact Nat.mod_eq_of_lt hS32
  have hfs1 : cfg.fragmentBytes >>> 1 = fs := by rw [Nat.shiftRight_one, hfs]
  have hnum : S / fs + (if S % fs ≠ 0 then 1 else 0) = n := by
    rw [hn]
    exact ceil_div_split fs S hfspos
  have hSle : S ≤ n * fs := by
    rw [← hnum]
    exact num_frags_mul_ge fs S hfspos
  have hndiv : ¬ fragLoopDiverges n := by
    unfold fragLoopDiverges
    omega
  have hcount : fragLoopCount n = n := by
    unfold fragLoopCount
    rw [if_pos hn16]
  have hPC : ProcessChannel cfg fmt chmap buff wie bid ch ht et cc mask =
      ⟨(cw : Int),
       (List.range n).map (fun i =>
         padTo2 (cfg.fragmentBytes + straxHeaderSize)
           (le_bytes 8 (u64n (fmtGet fmt "ns_per_clk" * ((tm + ct : Nat) : Int)
               + ((fs * u16n fmt.ns_per_sample * i : Nat) : Int)))
             ++ le_bytes 4 (if i = n - 1 then S - i * fs else fs)
             ++ le_bytes 2 (u16n fmt.ns_per_sample)
             ++ le_int 2 (chmap bid ch)
             ++ le_bytes 4 S
             ++ le_bytes 2 (i % 2 ^ 16)
             ++ le_bytes 2 bl
             ++ ((wordBytes (buff.drop chwN)).drop (i * fs * 2)).take
                  ((if i = n - 1 then S - i * fs else fs) * 2))),
       [], false, false⟩ := by
    simp only [ProcessChannel, hhead]
    simp only [processTail, hss, hsampS, hfs1, hnum, hscan, Bool.false_eq_true, if_false]
    rw [if_neg hcl, if_neg hndiv, hcount]
  have hwb4 : 2 * S ≤ 4 * (buff.length - chwN) := by omega
  refine ⟨?_, ?_, ?_, ?_, ?_, ?_, ?_, ?_⟩
  · rw [hPC]
    simp
  · rw [hPC]
  · rw [hPC]
  · rw [hPC]
  · rw [hPC]
  · intro i hi
    rw [hPC]
    constructor
    · rw [getD_map_range _ _ _ _ hi, hsize i]
      rfl
    · rw [getD_map_range _ _ _ _ hi]
      rfl
  · rcases Nat.eq_zero_or_pos S with hS0 | hS0
    · have hn0 : n = 0 := by
        rw [hn, hS0]
        simp
        exact Nat.div_eq_of_lt (by omega)
      rw [hn0, hS0]
      simp
    · have hn1 : 0 < n := by
        rw [hn]
        exact Nat.div_pos (by omega) hfspos
      have hpred : (n - 1) * fs < S := by
        have h := num_frags_pred_mul_lt fs S hfspos hS0
        rwa [hnum] at h
      obtain ⟨m, hm⟩ : ∃ m, n = m + 1 := ⟨n - 1, by omega⟩
      rw [hm, List.range_succ, List.map_append, List.sum_append]
      have hcongr : (List.range m).map size = (List.range m).map (fun _ => fs) := by
        apply List.map_congr_left
        intro i hi
        rw [hsize i, hm]
        simp only [Nat.add_sub_cancel]
        rw [if_neg (Nat.ne_of_lt (List.mem_range.mp hi))]
      rw [hcongr, sum_map_const_range]
      have hmfs : m * fs < S := by
        have he : n - 1 = m := by omega
        rwa [he] at hpred
      simp only [List.map_cons, List.map_nil, List.sum_cons, List.sum_nil, Nat.add_zero]
      rw [hsize m, hm]
      simp only [Nat.add_sub_cancel, eq_self_iff_true, if_true]
      omega
  · rcases Nat.eq_zero_or_pos S with hS0 | hS0
    · have hn0 : n = 0 := by
        rw [hn, hS0]
        simp
        exact Nat.div_eq_of_lt (by omega)
      have hcw0 : cw - chwN = 0 := by omega
      rw [hn0, hcw0]
      simp [wordBytes]
    · have hn1 : 0 < n := by
        rw [hn]
        exact Nat.div_pos (by omega) hfspos
      have hpred : (n - 1) * fs < S := by
        have h := num_frags_pred_mul_lt fs S hfspos hS0
        rwa [hnum] at h
      have hwblen : S * 2 ≤ (wordBytes (buff.drop chwN)).length := by
        rw [wordBytes_length, List.length_drop]
        omega
      have hstep : ∀ i ∈ List.range n,
          (((ProcessChannel cfg fmt chmap buff wie bid ch ht et cc mask).frags.getD
            i []).drop 24).take (size i * 2) =
          ((wordBytes (buff.drop chwN)).drop (i * (fs * 2))).take
            (if i = n - 1 then S * 2 - (n - 1) * (fs * 2) else fs * 2) := by
        intro i hi
        have hi2 : i < n := List.mem_range.mp hi
        rw [hPC]
        rw [getD_map_range _ _ _ _ hi2]
        obtain ⟨r0, hdrop⟩ : ∃ r0,
            ((fun i =>
              padTo2 (cfg.fragmentBytes + straxHeaderSize)
                (le_bytes 8 (u64n (fmtGet fmt "ns_per_clk" * ((tm + ct : Nat) : Int)
                    + ((fs * u16n fmt.ns_per_sample * i : Nat) : Int)))
                  ++ le_bytes 4 (if i = n - 1 then S - i * fs else fs)
                  ++ le_bytes 2 (u16n fmt.ns_per_sample)
                  ++ le_int 2 (chmap bid ch)
                  ++ le_bytes 4 S
                  ++ le_bytes 2 (i % 2 ^ 16)
                  ++ le_bytes 2 bl
                  ++ ((wordBytes (buff.drop chwN)).drop (i * fs * 2)).take
                       ((if i = n - 1 then S - i * fs else fs) * 2))) i).drop 24 =
            ((wordBytes (buff.drop chwN)).drop (i * fs * 2)).take
              ((if i = n - 1 then S - i * fs else fs) * 2) ++ List.replicate r0 0 :=
          ⟨_, rfl⟩
        rw [hdrop]
        have hplen : (((wordBytes (buff.drop chwN)).drop (i * fs * 2)).take
            ((if i = n - 1 then S - i * fs else fs) * 2)).length = size i * 2 := by
          simp only [List.length_take, List.length_drop, wordBytes_length]
          rw [hsize i]
          apply min_eq_left
          by_cases hP : i = n - 1
          · subst hP
            simp only [eq_self_iff_true, if_true]
            have e5 : (S - (n - 1) * fs) * 2 = S * 2 - (n - 1) * fs * 2 := by
              rw [Nat.sub_mul]
            have e6 : (n - 1) * fs * 2 = ((n - 1) * fs) * 2 := by ring
            omega
          · rw [if_neg hP]
            have hip : i + 1 ≤ n - 1 := by omega
            have hmul : (i + 1) * fs ≤ (n - 1) * fs := mul_le_mul_right' hip fs
            have e7 : (i + 1) * fs = i * fs + fs := by ring
            omega
        rw [List.take_left' hplen]
        by_cases hP : i = n - 1
        · subst hP
          simp only [eq_self_iff_true, if_true]
          have e1 : (n - 1) * fs * 2 = (n - 1) * (fs * 2) := by ring
          have e2 : (S - (n - 1) * fs) * 2 = S * 2 - (n - 1) * (fs * 2) := by
            rw [Nat.sub_mul, Nat.mul_assoc]
          rw [e1, e2]
        · simp only [if_neg hP]
          rw [Nat.mul_assoc]
      rw [List.map_congr_left hstep]
      rw [flatten_chunks_last (wordBytes (buff.drop chwN)) (fs * 2) n (S * 2)
        (by omega) hn1 ?_ ?_ hwblen]
      · have e4 : S * 2 = 4 * (cw - chwN) := by rw [hS]; ring
        rw [e4, wordBytes_take]
      · have e : (n - 1) * (fs * 2) = ((n - 1) * fs) * 2 := by ring
        rw [e]
        omega
      · have e : n * (fs * 2) = (n * fs) * 2 := by ring
        rw [e]
        omega

/-- C4 witness: channel 0 of the scenario-1 event (8 samples, payload 16
bytes) yields one fragment whose payload reproduces the pulse. -/
theorem pulse_fragmentation_roundtrip_witness :
    (channelHead fmtDefault10 (s1words.drop 4) 12 0x1000 0x1000 0 3 = some (4, 0, 4096, 0)) ∧
    ((ProcessChannel ⟨16⟩ fmtDefault10 chmapId (s1words.drop 4) 12 0 0 0x1000 0x1000 0 3).frags.length = 1 ∧
     (ProcessChannel ⟨16⟩ fmtDefault10 chmapId (s1words.drop 4) 12 0 0 0x1000 0x1000 0 3).ret = (4 : Int) ∧
     (ProcessChannel ⟨16⟩ fmtDefault10 chmapId (s1words.drop 4) 12 0 0 0x1000 0x1000 0 3).deadtime = [] ∧
     (ProcessChannel ⟨16⟩ fmtDefault10 chmapId (s1words.drop 4) 12 0 0 0x1000 0x1000 0 3).fatalError = false ∧
     (ProcessChannel ⟨16⟩ fmtDefault10 chmapId (s1words.drop 4) 12 0 0 0x1000 0x1000 0 3).diverges = false ∧
     (∀ i, i < 1 →
       (((ProcessChannel ⟨16⟩ fmtDefault10 chmapId (s1words.drop 4) 12 0 0 0x1000 0x1000 0 3).frags.getD i []).drop 8).take 4
          = le_bytes 4 (if i = 1 - 1 then 8 - i * 8 else 8) ∧
       (((ProcessChannel ⟨16⟩ fmtDefault10 chmapId (s1words.drop 4) 12 0 0 0x1000 0x1000 0 3).frags.getD i []).drop 20).take 2
          = le_bytes 2 (i % 2 ^ 16)) ∧
     ((List.range 1).map (fun i => if i = 1 - 1 then 8 - i * 8 else 8)).sum = 8 ∧
     ((List.range 1).map (fun i =>
        (((ProcessChannel ⟨16⟩ fmtDefault10 chmapId (s1words.drop 4) 12 0 0 0x1000 0x1000 0 3).frags.getD i []).drop 24).take
          ((if i = 1 - 1 then 8 - i * 8 else 8) * 2))).flatten
       = wordBytes (((s1words.drop 4).drop 0).take (4 - 0))) :=
  ⟨by decide,
   pulse_fragmentation_roundtrip ⟨16⟩ fmtDefault10 chmapId (s1words.drop 4) 12 0 0
     0x1000 0x1000 0 3 4 0 4096 0 0 8 8 1 (fun i => if i = 1 - 1 then 8 - i * 8 else 8)
     (ProcessChannel ⟨16⟩ fmtDefault10 chmapId (s1words.drop 4) 12 0 0 0x1000 0x1000 0 3)
     rfl (by decide) (by decide) (by decide) (by decide) (by decide) (by decide) (by decide)
     (by decide) (by decide) (fun i => rfl) (by decide) (by decide) (by decide) (by decide)
     (by decide)⟩

theorem caenSentinel_wrap_input : caenSentinel [0x8002, 0, 0] 2 32770 = false := by
  unfold caenSentinel
  rw [List.any_eq_false]
  intro w hw
  have h2 : 2 ≤ w := by
    have h := List.mem_range'_1.mp hw
    omega
  have h0 : ([0x8002, 0, 0] : List Nat).getD w 0 = 0 := by
    rcases w with _ | _ | _ | m
    · omega
    · omega
    · rfl
    · rfl
  rw [h0]
  decide

/-- C4 counterexample: a DPP-DAW channel (2 header words, `payload_bytes = 2`)
whose header declares 32770 channel words decodes to `S = 65536` samples and
`fs = 1` sample per fragment, so the claim promises
`ceil(S / fs) = 2^16` fragments with indices 0..2^16-1.  But the fragment
loop counter `frag_i` is `uint16_t` (src/StraxFormatter.cc line 277): with
`num_frags = 2^16` it wraps from 65535 back to 0 before the bound can fail,
the loop never terminates, and no finite list of fragments is produced. -/
theorem frag_counter_wrap_nontermination :
    (ProcessChannel ⟨2⟩ fmtDpp2 chmapId [0x8002, 0, 0] 32770 0 0 0 0 0 1 =
      ⟨-1, [], [], false, true⟩) ∧
    ((32770 - 2) * 2 + 2 / 2 - 1) / (2 / 2) = 2 ^ 16 := by
  refine ⟨?_, by norm_num⟩
  have hhead : channelHead fmtDpp2 [0x8002, 0, 0] 32770 0 0 0 1 = some (32770, 0, 0, 0) := by
    decide
  have hss : u32n fmtDpp2.channel_header_words = 2 := by decide
  simp only [ProcessChannel, hhead]
  simp only [processTail, hss, caenSentinel_wrap_input, Bool.false_eq_true, if_false]
  decide

/-- C8 witness: a channel whose first payload word is 0xA1112222 (top
nibble 0xA) aborts with one deadtime fragment and no data fragments. -/
theorem caen_sentinel_abort_witness :
    (caenSentinel [0xA1112222, 0x33334444] (u32n fmtDefault10.channel_header_words) 2 = true) ∧
    ProcessChannel ⟨16⟩ fmtDefault10 chmapId [0xA1112222, 0x33334444] 6 0 0 0 0 0 1 =
      ⟨-1, [], [((0 : Int), GenerateArtificialDeadtime ⟨16⟩ (0 : Int) 0)], false, false⟩ :=
  ⟨by decide,
   (caen_sentinel_abort ⟨16⟩ fmtDefault10 chmapId [0xA1112222, 0x33334444] 6 0 0 0 0 0 1
     2 0 0 0 (by decide) (by decide)).1⟩

/-- C9 witness: with a channel map whose every lookup yields -1, a clean
channel decode throws the fatal error with no fragments emitted. -/
theorem channel_map_lookup_fatal_witness :
    (chmapFail 0 0 = -1 ↔
      (ProcessChannel ⟨16⟩ fmtDefault10 chmapFail [0x11112222, 0x33334444] 6 0 0 0 0 0 1).fatalError = true) ∧
    (chmapFail 0 0 = -1 →
      ProcessChannel ⟨16⟩ fmtDefault10 chmapFail [0x11112222, 0x33334444] 6 0 0 0 0 0 1 =
        ⟨-1, [], [], true, false⟩) :=
  channel_map_lookup_fatal.1 ⟨16⟩ fmtDefault10 chmapFail [0x11112222, 0x33334444] 6 0 0 0 0 0 1
    2 0 0 0 (by decide) (by decide)
